import Mathlib

/-!
Shallow embedding of `crates/ide_db/src/active_parameter.rs`:
the queries `ActiveParameter::at_token`, `callable_for_token` and
`generics_for_token`, together with the syntax-tree and semantic-snapshot
interfaces they consume.  The syntax tree is represented by the token's
chain of enclosing ancestors (innermost first); the semantic collaborator
(`hir::Semantics`) is an abstract record of resolution functions, as the
spec treats it as an external collaborator.
-/

namespace RA

/-- Half-open text range of a syntax element, `start ≤ stop`.  Mirrors
`syntax::TextRange`; the source's `end()` is called `stop` here because
`end` is a Lean keyword. -/
structure TextRange where
  start : Nat
  stop : Nat
deriving DecidableEq, Repr

/-- Mirrors `TextRange::contains(offset)`: `start <= offset && offset < end`. -/
def TextRange.containsOffset (r : TextRange) (o : Nat) : Bool :=
  r.start ≤ o && o < r.stop

/-- Opaque semantic type (`hir::Type`), identified by an id. -/
structure Ty where
  id : Nat
deriving DecidableEq, Repr

/-- Mirrors `hir::TypeInfo { original, adjusted }`. -/
structure TypeInfo where
  original : Ty
  adjustedTy : Option Ty
deriving DecidableEq, Repr

/-- Mirrors `TypeInfo::adjusted(): self.adjusted.unwrap_or(self.original)`. -/
def TypeInfo.adjusted (t : TypeInfo) : Ty :=
  t.adjustedTy.getD t.original

/-- Identifier name (`ast::Name`). -/
abbrev Name := String

/-- Receiver (`self`) parameter node, `ast::SelfParam`. -/
structure SelfParam where
  id : Nat
deriving DecidableEq, Repr

/-- Identifier pattern node; `ast::IdentPat::name()` is optional in the AST. -/
structure IdentPat where
  name : Option Name
deriving DecidableEq, Repr

/-- Pattern node `ast::Pat`; the variants other than `IdentPat` that the
source never distinguishes are collapsed into representative destructuring
forms. -/
inductive Pat
  | IdentPat (p : IdentPat)
  | WildcardPat
  | TuplePat
  | OtherPat
deriving DecidableEq, Repr

/-- Mirrors `either::Either`. -/
inductive Either (α β : Type)
  | Left (l : α)
  | Right (r : β)
deriving DecidableEq, Repr

/-- Mirrors `Either::right(self) -> Option<R>`. -/
def Either.rightValue {α β : Type} : Either α β → Option β
  | .Right r => some r
  | .Left _ => none

/-- Mirrors `hir::Callable` as the source observes it: `params(db)` yields an
ordered list of `(Option<Either<SelfParam, Pat>>, Type)` pairs. -/
structure Callable where
  params : List (Option (Either SelfParam Pat) × Ty)
deriving DecidableEq, Repr

/-- The `ActiveParameter` struct of the source. -/
structure ActiveParameter where
  ty : Ty
  pat : Either SelfParam Pat
deriving DecidableEq, Repr

/-- Mirrors `ActiveParameter::ident`. -/
def ActiveParameter.ident (self : ActiveParameter) : Option Name :=
  (Either.rightValue self.pat).bind fun param =>
    match param with
    | Pat.IdentPat ident => ident.name
    | _ => none

/-- Expression node (`ast::Expr`), with its text range and an identity used
by the semantic oracle. -/
structure Expr where
  id : Nat
  range : TextRange
deriving DecidableEq, Repr

/-- Argument list node (`ast::ArgList`): its own range and its argument
expressions in source order. -/
structure ArgList where
  range : TextRange
  args : List Expr
deriving DecidableEq, Repr

/-- Generic argument node (`ast::GenericArg`); only its range is consumed. -/
structure GenericArg where
  range : TextRange
deriving DecidableEq, Repr

/-- Generic argument list node (`ast::GenericArgList`). -/
structure GenericArgList where
  range : TextRange
  genericArgs : List GenericArg
deriving DecidableEq, Repr

/-- Path node (`ast::Path`), opaque to this module. -/
structure Path where
  id : Nat
deriving DecidableEq, Repr

/-- Call expression node (`ast::CallExpr`): optional callee expression
(`CallExpr::expr()`) and optional argument list. -/
structure CallExpr where
  expr : Option Expr
  argListOpt : Option ArgList
deriving DecidableEq, Repr

/-- Method call expression node (`ast::MethodCallExpr`). -/
structure MethodCallExpr where
  id : Nat
  argListOpt : Option ArgList
deriving DecidableEq, Repr

/-- Mirrors `ast::CallableExpr` (either a plain call or a method call). -/
inductive CallableExpr
  | Call (c : CallExpr)
  | MethodCall (m : MethodCallExpr)
deriving DecidableEq, Repr

/-- Mirrors `HasArgList::arg_list()` on a `CallableExpr`. -/
def CallableExpr.argList : CallableExpr → Option ArgList
  | .Call c => c.argListOpt
  | .MethodCall m => m.argListOpt

/-- A node of the token's ancestor chain, recorded by what the source can
cast it to; every other node kind is `OtherNode`. -/
inductive SyntaxNode
  | CallExprNode (c : CallExpr)
  | MethodCallExprNode (m : MethodCallExpr)
  | GenericArgListNode (g : GenericArgList)
  | PathNode (p : Path)
  | OtherNode
deriving DecidableEq, Repr

/-- Mirrors `ast::CallableExpr::cast`. -/
def SyntaxNode.castCallableExpr : SyntaxNode → Option CallableExpr
  | .CallExprNode c => some (.Call c)
  | .MethodCallExprNode m => some (.MethodCall m)
  | _ => none

/-- Mirrors `ast::GenericArgList::cast`. -/
def SyntaxNode.castGenericArgList : SyntaxNode → Option GenericArgList
  | .GenericArgListNode g => some g
  | _ => none

/-- Mirrors `ast::Path::cast`. -/
def SyntaxNode.castPath : SyntaxNode → Option Path
  | .PathNode p => some p
  | _ => none

/-- Mirrors `ast::MethodCallExpr::cast`. -/
def SyntaxNode.castMethodCallExpr : SyntaxNode → Option MethodCallExpr
  | .MethodCallExprNode m => some m
  | _ => none

/-- A token: its text range and, when it has a parent, the ancestor chain of
that parent, innermost first (`token.parent()` followed by `ancestors()`). -/
structure SyntaxToken where
  range : TextRange
  parentChain : Option (List SyntaxNode)
deriving DecidableEq, Repr

/-- Opaque `hir::Adt`. -/
structure Adt where
  id : Nat
deriving DecidableEq, Repr

/-- Opaque `hir::Function`. -/
structure Function where
  id : Nat
deriving DecidableEq, Repr

/-- Opaque `hir::Trait`. -/
structure Trait where
  id : Nat
deriving DecidableEq, Repr

/-- Opaque `hir::TypeAlias`. -/
structure TypeAlias where
  id : Nat
deriving DecidableEq, Repr

/-- Opaque `hir::Variant`. -/
structure Variant where
  id : Nat
deriving DecidableEq, Repr

/-- Opaque `hir::BuiltinType`. -/
structure BuiltinType where
  id : Nat
deriving DecidableEq, Repr

/-- Opaque `hir::Const`. -/
structure ConstDef where
  id : Nat
deriving DecidableEq, Repr

/-- Opaque `hir::Macro` (named `MacDef` here). -/
structure MacDef where
  id : Nat
deriving DecidableEq, Repr

/-- Opaque `hir::Module`. -/
structure Module where
  id : Nat
deriving DecidableEq, Repr

/-- Opaque `hir::Static`. -/
structure Static where
  id : Nat
deriving DecidableEq, Repr

/-- Opaque `hir::BuiltinAttr`. -/
structure BuiltinAttr where
  id : Nat
deriving DecidableEq, Repr

/-- Opaque `hir::ToolModule`. -/
structure ToolModule where
  id : Nat
deriving DecidableEq, Repr

/-- Opaque `hir::Local`. -/
structure Local where
  id : Nat
deriving DecidableEq, Repr

/-- Opaque `hir::TypeParam`. -/
structure TypeParam where
  id : Nat
deriving DecidableEq, Repr

/-- Opaque `hir::ConstParam`. -/
structure ConstParam where
  id : Nat
deriving DecidableEq, Repr

/-- Opaque self type (`hir::Impl` payload of `PathResolution::SelfType`). -/
structure SelfType where
  id : Nat
deriving DecidableEq, Repr

/-- Mirrors `hir::ModuleDef` (the variants `active_parameter.rs` matches on);
`Mac` stands for the source's `Macro` variant. -/
inductive ModuleDef
  | Adt (it : Adt)
  | Function (it : Function)
  | Trait (it : Trait)
  | TypeAlias (it : TypeAlias)
  | Variant (it : Variant)
  | BuiltinType (it : BuiltinType)
  | Const (it : ConstDef)
  | Mac (it : MacDef)
  | Module (it : Module)
  | Static (it : Static)
deriving DecidableEq, Repr

/-- Mirrors `hir::AssocItem`. -/
inductive AssocItem
  | Function (it : Function)
  | Const (it : ConstDef)
  | TypeAlias (it : TypeAlias)
deriving DecidableEq, Repr

/-- Mirrors `hir::PathResolution`. -/
inductive PathResolution
  | Def (d : ModuleDef)
  | AssocItem (a : AssocItem)
  | BuiltinAttr (it : BuiltinAttr)
  | ToolModule (it : ToolModule)
  | Local (it : Local)
  | TypeParam (it : TypeParam)
  | ConstParam (it : ConstParam)
  | SelfType (it : SelfType)
deriving DecidableEq, Repr

/-- Mirrors the variants of `hir::GenericDef` that `generics_for_token` can
produce through the `From` conversions it invokes. -/
inductive GenericDef
  | Function (it : Function)
  | Adt (it : Adt)
  | Trait (it : Trait)
  | TypeAlias (it : TypeAlias)
  | Variant (it : Variant)
deriving DecidableEq, Repr

/-- The semantic snapshot (`hir::Semantics<RootDatabase>`) as the source
observes it: a record of the resolution queries it calls.  `as_callable`
is `Type::as_callable(db)` applied to an adjusted type. -/
structure Semantics where
  type_of_expr : Expr → Option TypeInfo
  as_callable : Ty → Option Callable
  resolve_method_call_as_callable : MethodCallExpr → Option Callable
  resolve_path : Path → Option PathResolution
  resolve_method_call : MethodCallExpr → Option Function

/-- The locator's per-candidate test inside `callable_for_token`:
`it.arg_list().map_or(false, |al| al.text_range().contains(token_start))`. -/
def argListContains (it : CallableExpr) (tokStart : Nat) : Bool :=
  match it.argList with
  | some al => al.range.containsOffset tokStart
  | none => false

/-- Mirrors the locator line of `callable_for_token`:
`parent.ancestors().filter_map(ast::CallableExpr::cast).find(...)` over the
ancestor chain, innermost first. -/
def find_callable_node (tokStart : Nat) : List SyntaxNode → Option CallableExpr
  | [] => none
  | n :: rest =>
    match SyntaxNode.castCallableExpr n with
    | some it =>
      if argListContains it tokStart then some it
      else find_callable_node tokStart rest
    | none => find_callable_node tokStart rest

/-- The combined cast-and-test step the locator applies to one ancestor. -/
def nodeCallableMatch (tokStart : Nat) (n : SyntaxNode) : Option CallableExpr :=
  match SyntaxNode.castCallableExpr n with
  | some it => if argListContains it tokStart then some it else none
  | none => none

/-- Mirrors the `callable` resolution match of `callable_for_token`: a plain
call resolves the callee expression's adjusted type to a callable, a method
call is resolved directly. -/
def resolve_callable (sema : Semantics) : CallableExpr → Option Callable
  | .Call call =>
    match call.expr with
    | some expr =>
      match sema.type_of_expr expr with
      | some info => sema.as_callable info.adjusted
      | none => none
    | none => none
  | .MethodCall call => sema.resolve_method_call_as_callable call

/-- Mirrors the `active_param` computation of `callable_for_token` (its
lines 60–68): if the located call has an argument list, count the arguments
whose end offset is at or before the token's start (`take_while ... count`);
a call without an argument list yields `none`. -/
def activeParamOf (calling_node : CallableExpr) (token : SyntaxToken) : Option Nat :=
  match calling_node.argList with
  | some arg_list =>
    some (arg_list.args.takeWhile
      (fun arg => arg.range.stop ≤ token.range.start)).length
  | none => none

/-- Mirrors `callable_for_token`. -/
def callable_for_token (sema : Semantics) (token : SyntaxToken) :
    Option (Callable × Option Nat) :=
  match token.parentChain with
  | none => none
  | some chain =>
    match find_callable_node token.range.start chain with
    | none => none
    | some calling_node =>
      match resolve_callable sema calling_node with
      | none => none
      | some callable => some (callable, activeParamOf calling_node token)

/-- Mirrors `ActiveParameter::at_token`.  `Vec::swap_remove(idx)` returns the
element at `idx`, so the bound-checked access models it; the out-of-bounds
branch is the source's `too_many_arguments` coverage mark. -/
def ActiveParameter.at_token (sema : Semantics) (token : SyntaxToken) :
    Option ActiveParameter :=
  match callable_for_token sema token with
  | none => none
  | some (signature, active_parameter) =>
    match active_parameter with
    | none => none
    | some idx =>
      let params := signature.params
      if h : idx < params.length then
        let pt := params.get ⟨idx, h⟩
        pt.1.map fun pat => { ty := pt.2, pat := pat }
      else
        none

/-- Mirrors the generic-argument-list locator of `generics_for_token`:
the innermost ancestor castable to a `GenericArgList` whose own range
contains the token's start, returned together with its remaining (outer)
ancestors. -/
def find_generic_arg_list (tokStart : Nat) :
    List SyntaxNode → Option (GenericArgList × List SyntaxNode)
  | [] => none
  | n :: rest =>
    match SyntaxNode.castGenericArgList n with
    | some list =>
      if list.range.containsOffset tokStart then some (list, rest)
      else find_generic_arg_list tokStart rest
    | none => find_generic_arg_list tokStart rest

/-- Mirrors `ancestors().find_map(ast::Path::cast)`. -/
def find_path_in (nodes : List SyntaxNode) : Option Path :=
  nodes.findSome? SyntaxNode.castPath

/-- Mirrors, arm for arm, the `match res` of `generics_for_token` that
narrows a `PathResolution` to a `GenericDef` (the arms that `return None`
become `none`). -/
def classify_resolution : PathResolution → Option GenericDef
  | .Def (.Adt it) => some (.Adt it)
  | .Def (.Function it) => some (.Function it)
  | .Def (.Trait it) => some (.Trait it)
  | .Def (.TypeAlias it) => some (.TypeAlias it)
  | .Def (.Variant it) => some (.Variant it)
  | .Def (.BuiltinType _) => none
  | .Def (.Const _) => none
  | .Def (.Mac _) => none
  | .Def (.Module _) => none
  | .Def (.Static _) => none
  | .AssocItem (.Function it) => some (.Function it)
  | .AssocItem (.TypeAlias it) => some (.TypeAlias it)
  | .AssocItem (.Const _) => none
  | .BuiltinAttr _ => none
  | .ToolModule _ => none
  | .Local _ => none
  | .TypeParam _ => none
  | .ConstParam _ => none
  | .SelfType _ => none

/-- Body of `generics_for_token` after its locator: the active-index count
and the path / method-call classification, verbatim from the source.
`outer` is the located argument list's chain of proper ancestors, so the
source's `arg_list.syntax().ancestors()` is the list node followed by
`outer` and `arg_list.syntax().parent()` is `outer.head?`. -/
def generics_resolve (sema : Semantics) (token : SyntaxToken)
    (arg_list : GenericArgList) (outer : List SyntaxNode) :
    Option (GenericDef × Nat) :=
  let active_param :=
    (arg_list.genericArgs.takeWhile
      (fun arg => arg.range.stop ≤ token.range.start)).length
  match find_path_in (SyntaxNode.GenericArgListNode arg_list :: outer) with
  | some path =>
    match sema.resolve_path path with
    | none => none
    | some res =>
      match classify_resolution res with
      | some generic_def => some (generic_def, active_param)
      | none => none
  | none =>
    match outer.head?.bind SyntaxNode.castMethodCallExpr with
    | some method_call =>
      match sema.resolve_method_call method_call with
      | some method => some (.Function method, active_param)
      | none => none
    | none => none

/-- Mirrors `generics_for_token`. -/
def generics_for_token (sema : Semantics) (token : SyntaxToken) :
    Option (GenericDef × Nat) :=
  match token.parentChain with
  | none => none
  | some chain =>
    match find_generic_arg_list token.range.start chain with
    | none => none
    | some (arg_list, outer) => generics_resolve sema token arg_list outer

/-- Stated from the spec's words (§3, GenericDef): the closed set of path
resolutions representable as a GenericDef — ADT definition, free function,
trait, type alias, enum variant, associated function, associated type
alias.  Used to compare the source's classification against the spec. -/
def specGenericDefSet : PathResolution → Bool
  | .Def (.Adt _) => true
  | .Def (.Function _) => true
  | .Def (.Trait _) => true
  | .Def (.TypeAlias _) => true
  | .Def (.Variant _) => true
  | .AssocItem (.Function _) => true
  | .AssocItem (.TypeAlias _) => true
  | _ => false

/-- Unfolding lemma: the locator inspects one ancestor with
`nodeCallableMatch` and recurses on a miss. -/
lemma find_callable_node_cons (s : Nat) (n : SyntaxNode) (rest : List SyntaxNode) :
    find_callable_node s (n :: rest) =
      match nodeCallableMatch s n with
      | some it => some it
      | none => find_callable_node s rest := by
  cases h : SyntaxNode.castCallableExpr n with
  | none => simp [find_callable_node, nodeCallableMatch, h]
  | some it =>
    by_cases hb : argListContains it s <;>
      simp [find_callable_node, nodeCallableMatch, h, hb]

/-- C2: the call-site locator returns exactly the innermost ancestor that is
call-like and whose argument list contains the token's start offset: the
chain (innermost first) splits as `pre ++ n :: post` with every node of
`pre` failing the cast-and-containment test and `n` passing it; when no
ancestor passes, no enclosing call is produced.  Hence for nested calls the
inner call wins, and a call-like ancestor whose argument list does not
contain the token (token in the callee) is skipped. -/
theorem c2_locator_innermost (tokStart : Nat) (chain : List SyntaxNode)
    (ce : CallableExpr) :
    find_callable_node tokStart chain = some ce ↔
      ∃ pre n post, chain = pre ++ n :: post ∧
        (∀ m ∈ pre, nodeCallableMatch tokStart m = none) ∧
        nodeCallableMatch tokStart n = some ce := by
  induction chain with
  | nil =>
    constructor
    · intro h; exact absurd h (by simp [find_callable_node])
    · rintro ⟨pre, n, post, hdecomp, -, -⟩
      exact absurd hdecomp (by simp)
  | cons a rest ih =>
    rw [find_callable_node_cons]
    cases h : nodeCallableMatch tokStart a with
    | some it =>
      constructor
      · intro he
        injection he with he
        subst he
        exact ⟨[], a, rest, rfl, by simp, h⟩
      · rintro ⟨pre, n, post, hdecomp, hpre, hn⟩
        cases pre with
        | nil =>
          simp only [List.nil_append, List.cons.injEq] at hdecomp
          obtain ⟨h1, -⟩ := hdecomp
          subst h1
          rw [h] at hn
          injection hn with hn
          rw [hn]
        | cons p ps =>
          simp only [List.cons_append, List.cons.injEq] at hdecomp
          obtain ⟨h1, -⟩ := hdecomp
          have hnone := hpre p (by simp)
          rw [← h1, h] at hnone
          exact absurd hnone (by simp)
    | none =>
      rw [ih]
      constructor
      · rintro ⟨pre, n, post, hdecomp, hpre, hn⟩
        refine ⟨a :: pre, n, post, by rw [hdecomp, List.cons_append], ?_, hn⟩
        intro m hm
        rcases List.mem_cons.mp hm with hm | hm
        · rw [hm]; exact h
        · exact hpre m hm
      · rintro ⟨pre, n, post, hdecomp, hpre, hn⟩
        cases pre with
        | nil =>
          simp only [List.nil_append, List.cons.injEq] at hdecomp
          obtain ⟨h1, -⟩ := hdecomp
          subst h1
          rw [h] at hn
          exact absurd hn (by simp)
        | cons p ps =>
          simp only [List.cons_append, List.cons.injEq] at hdecomp
          obtain ⟨-, h2⟩ := hdecomp
          exact ⟨ps, n, post, h2, fun m hm => hpre m (by simp [hm]), hn⟩

/-- C7: the active-index computation yields `none` exactly when the call has
no argument list at all, and `some 0` for a syntactically present but empty
argument list. -/
theorem c7_indexer_arg_list (calling_node : CallableExpr) (token : SyntaxToken) :
    (activeParamOf calling_node token = none ↔
      CallableExpr.argList calling_node = none) ∧
    (∀ al, CallableExpr.argList calling_node = some al → al.args = [] →
      activeParamOf calling_node token = some 0) := by
  constructor
  · cases h : CallableExpr.argList calling_node <;> simp [activeParamOf, h]
  · intro al hal hargs
    simp [activeParamOf, hal, hargs]

/-- Concrete call expression with no argument list. -/
def c7SampleCall : CallableExpr :=
  .Call { expr := some { id := 0, range := ⟨0, 1⟩ }, argListOpt := none }

/-- Concrete token placed after that call. -/
def c7SampleToken : SyntaxToken := { range := ⟨2, 3⟩, parentChain := none }

/-- Witness for C7 at a concrete input: a call with no argument list gets an
absent active index. -/
theorem c7_indexer_arg_list_witness :
    activeParamOf c7SampleCall c7SampleToken = none :=
  ((c7_indexer_arg_list c7SampleCall c7SampleToken).1).mpr rfl

/-- Characterization of `at_token` once `callable_for_token` has produced a
signature and an index: what remains is exactly the bound check and the
binding lookup. -/
lemma at_token_eq (sema : Semantics) (token : SyntaxToken)
    (sig : Callable) (idx : Nat)
    (hres : callable_for_token sema token = some (sig, some idx)) :
    ActiveParameter.at_token sema token =
      if h : idx < sig.params.length then
        (sig.params.get ⟨idx, h⟩).1.map
          fun pat => { ty := (sig.params.get ⟨idx, h⟩).2, pat := pat }
      else none := by
  unfold ActiveParameter.at_token
  rw [hres]

/-- Characterization of `callable_for_token` once the ancestor chain and the
located call-like node are fixed. -/
lemma callable_for_token_some_eq (sema : Semantics) (token : SyntaxToken)
    (chain : List SyntaxNode) (ce : CallableExpr)
    (hchain : token.parentChain = some chain)
    (hfind : find_callable_node token.range.start chain = some ce) :
    callable_for_token sema token =
      match resolve_callable sema ce with
      | none => none
      | some callable => some (callable, activeParamOf ce token) := by
  unfold callable_for_token
  rw [hchain]
  show (match find_callable_node token.range.start chain with
    | none => none
    | some calling_node =>
      match resolve_callable sema calling_node with
      | none => none
      | some callable => some (callable, activeParamOf calling_node token)) = _
  rw [hfind]

/-- C1: `ActiveParameter.at_token` produces a bound parameter only when the
computed active index is strictly below the resolved callable's parameter
count, and whenever the index reaches or exceeds that count it returns
`none` (the source's `too_many_arguments` branch) rather than faulting. -/
theorem c1_at_token_in_bounds (sema : Semantics) (token : SyntaxToken) :
    (∀ ap, ActiveParameter.at_token sema token = some ap →
      ∃ sig idx, callable_for_token sema token = some (sig, some idx) ∧
        idx < sig.params.length) ∧
    (∀ sig idx, callable_for_token sema token = some (sig, some idx) →
      sig.params.length ≤ idx →
      ActiveParameter.at_token sema token = none) := by
  constructor
  · intro ap h
    cases hc : callable_for_token sema token with
    | none =>
      unfold ActiveParameter.at_token at h
      rw [hc] at h
      exact absurd h (by simp)
    | some pr =>
      obtain ⟨sig, optIdx⟩ := pr
      cases optIdx with
      | none =>
        unfold ActiveParameter.at_token at h
        rw [hc] at h
        exact absurd h (by simp)
      | some idx =>
        rw [at_token_eq sema token sig idx hc] at h
        refine ⟨sig, idx, rfl, ?_⟩
        by_contra hge
        rw [dif_neg hge] at h
        exact absurd h (by simp)
  · intro sig idx hc hge
    rw [at_token_eq sema token sig idx hc, dif_neg (Nat.not_lt.mpr hge)]

/-- Callee expression of the C1 sample call `g(aa, bb)`. -/
def c1Callee : Expr := { id := 1, range := ⟨0, 1⟩ }

/-- Argument list of the C1 sample call: `aa` at 2..4, `bb` at 6..8. -/
def c1ArgList : ArgList :=
  { range := ⟨1, 9⟩,
    args := [{ id := 2, range := ⟨2, 4⟩ }, { id := 3, range := ⟨6, 8⟩ }] }

/-- The C1 sample call node. -/
def c1Call : CallExpr := { expr := some c1Callee, argListOpt := some c1ArgList }

/-- One-parameter signature the C1 sample callee resolves to. -/
def c1Sig : Callable :=
  { params := [(some (.Right (.IdentPat { name := some "x" })), ⟨1⟩)] }

/-- Semantic snapshot for the C1 sample. -/
def c1Sema : Semantics :=
  { type_of_expr := fun e =>
      if e.id = 1 then some { original := ⟨10⟩, adjustedTy := none } else none,
    as_callable := fun t => if t.id = 10 then some c1Sig else none,
    resolve_method_call_as_callable := fun _ => none,
    resolve_path := fun _ => none,
    resolve_method_call := fun _ => none }

/-- Token inside `bb`, the second argument of a one-parameter callable. -/
def c1Token : SyntaxToken :=
  { range := ⟨6, 8⟩,
    parentChain := some [.OtherNode, .OtherNode, .CallExprNode c1Call] }

/-- Witness for C1: the second argument of a one-parameter function takes
the too-many-arguments path and yields `none`. -/
theorem c1_at_token_in_bounds_witness :
    ActiveParameter.at_token c1Sema c1Token = none :=
  (c1_at_token_in_bounds c1Sema c1Token).2 c1Sig 1 rfl (by decide)

/-- Length of a Boolean `takeWhile` prefix equals the number of satisfying
elements whenever the predicate is downward closed along the list. -/
lemma length_takeWhile_eq_countP {α : Type} (p : α → Bool) (l : List α)
    (h : l.Pairwise fun a b => p b = true → p a = true) :
    (l.takeWhile p).length = l.countP p := by
  induction l with
  | nil => rfl
  | cons a t ih =>
    obtain ⟨ha, ht⟩ := List.pairwise_cons.mp h
    by_cases hp : p a = true
    · simp [List.takeWhile_cons, List.countP_cons, hp, ih ht]
    · have hz : t.countP p = 0 := by
        rw [List.countP_eq_zero]
        intro b hb
        exact fun hpb => hp (ha b hb hpb)
      simp [List.takeWhile_cons, List.countP_cons, hp, hz]

/-- C3: when the argument list is in source order (argument end offsets are
nondecreasing, as in a syntax tree), the active index returned by
`callable_for_token` equals the number of arguments whose end offset is at
or before the token's start offset. -/
theorem c3_active_index_count (sema : Semantics) (token : SyntaxToken)
    (chain : List SyntaxNode) (ce : CallableExpr) (al : ArgList)
    (sig : Callable) (idx : Nat)
    (hchain : token.parentChain = some chain)
    (hfind : find_callable_node token.range.start chain = some ce)
    (hal : CallableExpr.argList ce = some al)
    (hsorted : al.args.Pairwise fun a b => a.range.stop ≤ b.range.stop)
    (hres : callable_for_token sema token = some (sig, some idx)) :
    idx = al.args.countP fun a => a.range.stop ≤ token.range.start := by
  rw [callable_for_token_some_eq sema token chain ce hchain hfind] at hres
  cases hrc : resolve_callable sema ce with
  | none => rw [hrc] at hres; exact absurd hres (by simp)
  | some c =>
    rw [hrc] at hres
    simp at hres
    obtain ⟨-, h2⟩ := hres
    simp only [activeParamOf, hal, Option.some.injEq] at h2
    rw [← h2]
    apply length_takeWhile_eq_countP
    refine hsorted.imp ?_
    intro a b hab hpb
    simp only [decide_eq_true_eq] at hpb ⊢
    exact le_trans hab hpb

/-- Callee expression of the C3 sample call `f(aa, bb, cc)`. -/
def c3Callee : Expr := { id := 1, range := ⟨0, 1⟩ }

/-- Argument list of the C3 sample: `aa` at 2..4, `bb` at 6..8, `cc` at
10..12. -/
def c3ArgList : ArgList :=
  { range := ⟨1, 13⟩,
    args := [{ id := 2, range := ⟨2, 4⟩ }, { id := 3, range := ⟨6, 8⟩ },
      { id := 4, range := ⟨10, 12⟩ }] }

/-- The C3 sample call node. -/
def c3Call : CallExpr := { expr := some c3Callee, argListOpt := some c3ArgList }

/-- Three-parameter signature the C3 sample callee resolves to. -/
def c3Sig : Callable :=
  { params :=
      [(some (.Right (.IdentPat { name := some "a" })), ⟨1⟩),
       (some (.Right (.IdentPat { name := some "b" })), ⟨2⟩),
       (some (.Right (.IdentPat { name := some "c" })), ⟨3⟩)] }

/-- Semantic snapshot for the C3 sample. -/
def c3Sema : Semantics :=
  { type_of_expr := fun e =>
      if e.id = 1 then some { original := ⟨20⟩, adjustedTy := none } else none,
    as_callable := fun t => if t.id = 20 then some c3Sig else none,
    resolve_method_call_as_callable := fun _ => none,
    resolve_path := fun _ => none,
    resolve_method_call := fun _ => none }

/-- Ancestor chain of the C3 sample token. -/
def c3Chain : List SyntaxNode := [.OtherNode, .OtherNode, .CallExprNode c3Call]

/-- Token inside `bb` of `f(aa, bb, cc)`. -/
def c3Token : SyntaxToken := { range := ⟨6, 8⟩, parentChain := some c3Chain }

/-- Witness for C3: for `f(aa, bb, cc)` with the token inside `bb` the
active index is exactly 1, the count of arguments ending before the token. -/
theorem c3_active_index_count_witness :
    (1 : Nat) =
      c3ArgList.args.countP fun a => a.range.stop ≤ c3Token.range.start :=
  c3_active_index_count c3Sema c3Token c3Chain (.Call c3Call) c3ArgList c3Sig 1
    rfl rfl rfl (by decide) rfl

/-- C9: when the in-bounds parameter selected by the active index has no
recorded binding (its pattern component is `none`), `at_token` returns
`none` instead of faulting. -/
theorem c9_missing_binding_none (sema : Semantics) (token : SyntaxToken)
    (sig : Callable) (idx : Nat)
    (hres : callable_for_token sema token = some (sig, some idx))
    (h : idx < sig.params.length)
    (hpat : (sig.params.get ⟨idx, h⟩).1 = none) :
    ActiveParameter.at_token sema token = none := by
  rw [at_token_eq sema token sig idx hres, dif_pos h, hpat]
  rfl

/-- Callee expression of the C9 sample call `h()`. -/
def c9Callee : Expr := { id := 1, range := ⟨0, 1⟩ }

/-- Empty argument list of the C9 sample. -/
def c9ArgList : ArgList := { range := ⟨1, 3⟩, args := [] }

/-- The C9 sample call node. -/
def c9Call : CallExpr := { expr := some c9Callee, argListOpt := some c9ArgList }

/-- Signature whose only parameter records no binding pattern. -/
def c9Sig : Callable := { params := [(none, ⟨5⟩)] }

/-- Semantic snapshot for the C9 sample. -/
def c9Sema : Semantics :=
  { type_of_expr := fun e =>
      if e.id = 1 then some { original := ⟨30⟩, adjustedTy := none } else none,
    as_callable := fun t => if t.id = 30 then some c9Sig else none,
    resolve_method_call_as_callable := fun _ => none,
    resolve_path := fun _ => none,
    resolve_method_call := fun _ => none }

/-- Token between the parentheses of `h()`. -/
def c9Token : SyntaxToken :=
  { range := ⟨2, 2⟩, parentChain := some [.OtherNode, .CallExprNode c9Call] }

/-- Witness for C9: an in-bounds parameter with an absent binding makes
`at_token` return `none`. -/
theorem c9_missing_binding_none_witness :
    ActiveParameter.at_token c9Sema c9Token = none :=
  c9_missing_binding_none c9Sema c9Token c9Sig 0 rfl (by decide) rfl

/-- Characterization of `generics_for_token` once the ancestor chain and the
located generic-argument list are fixed. -/
lemma generics_for_token_some_eq (sema : Semantics) (token : SyntaxToken)
    (chain : List SyntaxNode) (g : GenericArgList) (outer : List SyntaxNode)
    (hchain : token.parentChain = some chain)
    (hfind : find_generic_arg_list token.range.start chain = some (g, outer)) :
    generics_for_token sema token = generics_resolve sema token g outer := by
  unfold generics_for_token
  rw [hchain]
  show (match find_generic_arg_list token.range.start chain with
    | none => none
    | some (arg_list, outer) => generics_resolve sema token arg_list outer) = _
  rw [hfind]

/-- The source's classification succeeds on exactly the spec's closed set of
generic-bearing resolutions. -/
lemma classify_resolution_isSome (res : PathResolution) :
    (classify_resolution res).isSome = specGenericDefSet res := by
  cases res with
  | Def d => cases d <;> rfl
  | AssocItem a => cases a <;> rfl
  | BuiltinAttr it => rfl
  | ToolModule it => rfl
  | Local it => rfl
  | TypeParam it => rfl
  | ConstParam it => rfl
  | SelfType it => rfl

/-- C4: when the located generic-argument list's ancestor chain contains a
path, `generics_for_token` produces a result exactly when that path resolves
to one of the spec's closed GenericDef set (ADT, function, trait, type
alias, variant, associated function, associated type alias); every other
resolution — and a failed resolution — yields `none`, regardless of the
argument position. -/
theorem c4_generic_path_closed_set (sema : Semantics) (token : SyntaxToken)
    (chain : List SyntaxNode) (g : GenericArgList) (outer : List SyntaxNode)
    (path : Path)
    (hchain : token.parentChain = some chain)
    (hfind : find_generic_arg_list token.range.start chain = some (g, outer))
    (hpath : find_path_in (SyntaxNode.GenericArgListNode g :: outer) = some path) :
    (∃ r, generics_for_token sema token = some r) ↔
      ∃ res, sema.resolve_path path = some res ∧ specGenericDefSet res = true := by
  rw [generics_for_token_some_eq sema token chain g outer hchain hfind]
  cases hres : sema.resolve_path path with
  | none => simp [generics_resolve, hpath, hres]
  | some res =>
    cases hcl : classify_resolution res with
    | none =>
      have hspec : specGenericDefSet res = false := by
        have h := classify_resolution_isSome res
        rw [hcl] at h
        simpa using h.symm
      simp [generics_resolve, hpath, hres, hcl, hspec]
    | some gd =>
      have hspec : specGenericDefSet res = true := by
        have h := classify_resolution_isSome res
        rw [hcl] at h
        simpa using h.symm
      simp [generics_resolve, hpath, hres, hcl, hspec]

/-- Generic-argument list of the C4 sample `Vec::<T1, T2>`: `T1` at 5..7,
`T2` at 9..11. -/
def c4G : GenericArgList :=
  { range := ⟨4, 12⟩, genericArgs := [{ range := ⟨5, 7⟩ }, { range := ⟨9, 11⟩ }] }

/-- Path node of the C4 sample. -/
def c4Path : Path := { id := 1 }

/-- Outer ancestors of the C4 sample's generic-argument list. -/
def c4Outer : List SyntaxNode := [.PathNode c4Path, .OtherNode]

/-- Ancestor chain of the C4 sample token. -/
def c4Chain : List SyntaxNode := .GenericArgListNode c4G :: c4Outer

/-- Semantic snapshot for the C4 sample: the path resolves to an ADT. -/
def c4Sema : Semantics :=
  { type_of_expr := fun _ => none,
    as_callable := fun _ => none,
    resolve_method_call_as_callable := fun _ => none,
    resolve_path := fun p => if p.id = 1 then some (.Def (.Adt ⟨2⟩)) else none,
    resolve_method_call := fun _ => none }

/-- Token at `T2` of the C4 sample. -/
def c4Token : SyntaxToken := { range := ⟨9, 11⟩, parentChain := some c4Chain }

/-- Witness for C4 at a concrete input: a path resolving to an ADT makes the
query produce a result. -/
theorem c4_generic_path_closed_set_witness :
    ∃ r, generics_for_token c4Sema c4Token = some r :=
  (c4_generic_path_closed_set c4Sema c4Token c4Chain c4G c4Outer c4Path
    rfl rfl rfl).mpr ⟨.Def (.Adt ⟨2⟩), rfl, rfl⟩

/-- C5: for explicit generic arguments on a method call (the argument list's
parent is a method-call expression and no path encloses it), the query
resolves the method and wraps it in the function variant of `GenericDef`,
with the geometric active index; a token before the first completed generic
argument gets index 0. -/
theorem c5_method_call_generics (sema : Semantics) (token : SyntaxToken)
    (chain : List SyntaxNode) (g : GenericArgList) (outer : List SyntaxNode)
    (mc : MethodCallExpr) (f : Function)
    (hchain : token.parentChain = some chain)
    (hfind : find_generic_arg_list token.range.start chain = some (g, outer))
    (hnopath : find_path_in (SyntaxNode.GenericArgListNode g :: outer) = none)
    (hparent : outer.head?.bind SyntaxNode.castMethodCallExpr = some mc)
    (hres : sema.resolve_method_call mc = some f) :
    generics_for_token sema token =
      some (GenericDef.Function f,
        (g.genericArgs.takeWhile
          (fun arg => arg.range.stop ≤ token.range.start)).length) ∧
    ((∀ arg ∈ g.genericArgs, token.range.start < arg.range.stop) →
      (g.genericArgs.takeWhile
        (fun arg => arg.range.stop ≤ token.range.start)).length = 0) := by
  constructor
  · rw [generics_for_token_some_eq sema token chain g outer hchain hfind]
    simp only [generics_resolve, hnopath, hparent, hres]
  · intro hall
    cases hg : g.genericArgs with
    | nil => rfl
    | cons a t =>
      have ha := hall a (by rw [hg]; exact List.mem_cons_self a t)
      simp [List.takeWhile_cons, Nat.not_le.mpr ha]

/-- Generic-argument list of the C5 sample `recv.method::<T>()`: `T` at
6..7. -/
def c5G : GenericArgList :=
  { range := ⟨3, 8⟩, genericArgs := [{ range := ⟨6, 7⟩ }] }

/-- Method-call node of the C5 sample. -/
def c5Mc : MethodCallExpr :=
  { id := 9, argListOpt := some { range := ⟨8, 10⟩, args := [] } }

/-- Outer ancestors of the C5 sample's generic-argument list. -/
def c5Outer : List SyntaxNode := [.MethodCallExprNode c5Mc, .OtherNode]

/-- Ancestor chain of the C5 sample token. -/
def c5Chain : List SyntaxNode := .GenericArgListNode c5G :: c5Outer

/-- Semantic snapshot for the C5 sample: the method call resolves to a
method. -/
def c5Sema : Semantics :=
  { type_of_expr := fun _ => none,
    as_callable := fun _ => none,
    resolve_method_call_as_callable := fun _ => none,
    resolve_path := fun _ => none,
    resolve_method_call := fun m => if m.id = 9 then some ⟨7⟩ else none }

/-- Token at `T` of the C5 sample. -/
def c5Token : SyntaxToken := { range := ⟨6, 7⟩, parentChain := some c5Chain }

/-- Witness for C5 at a concrete input: `recv.method::<T>()` with the token
at `T` yields the method wrapped as a function and active index 0. -/
theorem c5_method_call_generics_witness :
    generics_for_token c5Sema c5Token = some (GenericDef.Function ⟨7⟩, 0) :=
  (c5_method_call_generics c5Sema c5Token c5Chain c5G c5Outer c5Mc ⟨7⟩
    rfl rfl rfl rfl rfl).1

/-- C6: whenever `generics_for_token` succeeds, the returned index is the
geometric count — generic arguments of the located list ending at or before
the token's start — computed the same way in the path branch and in the
method-call branch, with no comparison against the resolved target's
declared generic-parameter count. -/
theorem c6_generic_index_geometric (sema : Semantics) (token : SyntaxToken)
    (chain : List SyntaxNode) (g : GenericArgList) (outer : List SyntaxNode)
    (gd : GenericDef) (idx : Nat)
    (hchain : token.parentChain = some chain)
    (hfind : find_generic_arg_list token.range.start chain = some (g, outer))
    (hres : generics_for_token sema token = some (gd, idx)) :
    idx = (g.genericArgs.takeWhile
      (fun arg => arg.range.stop ≤ token.range.start)).length := by
  rw [generics_for_token_some_eq sema token chain g outer hchain hfind] at hres
  cases hp : find_path_in (SyntaxNode.GenericArgListNode g :: outer) with
  | some path =>
    simp only [generics_resolve, hp] at hres
    cases hr : sema.resolve_path path with
    | none => simp [hr] at hres
    | some res =>
      simp only [hr] at hres
      cases hcl : classify_resolution res with
      | none => simp [hcl] at hres
      | some gd2 =>
        simp only [hcl, Option.some.injEq, Prod.mk.injEq] at hres
        exact hres.2.symm
  | none =>
    simp only [generics_resolve, hp] at hres
    cases hb : outer.head?.bind SyntaxNode.castMethodCallExpr with
    | none => simp [hb] at hres
    | some mc =>
      simp only [hb] at hres
      cases hm : sema.resolve_method_call mc with
      | none => simp [hm] at hres
      | some f =>
        simp only [hm, Option.some.injEq, Prod.mk.injEq] at hres
        exact hres.2.symm

/-- Generic-argument list of the C6 sample: five generic arguments, all
ending before the token. -/
def c6G : GenericArgList :=
  { range := ⟨4, 40⟩,
    genericArgs := [{ range := ⟨5, 6⟩ }, { range := ⟨8, 10⟩ },
      { range := ⟨12, 14⟩ }, { range := ⟨16, 18⟩ }, { range := ⟨20, 22⟩ }] }

/-- Path node of the C6 sample. -/
def c6Path : Path := { id := 1 }

/-- Outer ancestors of the C6 sample's generic-argument list. -/
def c6Outer : List SyntaxNode := [.PathNode c6Path, .OtherNode]

/-- Ancestor chain of the C6 sample token. -/
def c6Chain : List SyntaxNode := .GenericArgListNode c6G :: c6Outer

/-- Semantic snapshot for the C6 sample: the path resolves to a function. -/
def c6Sema : Semantics :=
  { type_of_expr := fun _ => none,
    as_callable := fun _ => none,
    resolve_method_call_as_callable := fun _ => none,
    resolve_path := fun p => if p.id = 1 then some (.Def (.Function ⟨3⟩)) else none,
    resolve_method_call := fun _ => none }

/-- Token after the fifth generic argument of the C6 sample. -/
def c6Token : SyntaxToken := { range := ⟨30, 31⟩, parentChain := some c6Chain }

/-- Witness for C6 at a concrete input: the index 5 is returned purely from
geometry, with no check against the resolved function's declared
generic-parameter count. -/
theorem c6_generic_index_geometric_witness :
    (5 : Nat) = (c6G.genericArgs.takeWhile
      (fun arg => arg.range.stop ≤ c6Token.range.start)).length :=
  c6_generic_index_geometric c6Sema c6Token c6Chain c6G c6Outer
    (.Function ⟨3⟩) 5 rfl rfl rfl

/-- The C8 counterexample value: an `ActiveParameter` whose binding is an
identifier pattern that carries no name (the AST permits a nameless
`IdentPat`). -/
def c8Param : ActiveParameter :=
  { ty := ⟨0⟩, pat := .Right (.IdentPat { name := none }) }

/-- C8 counterexample: the binding is an ordinary identifier pattern, yet
`ident` yields nothing, refuting the claim's "exactly when". -/
theorem c8_ident_counterexample :
    c8Param.pat = Either.Right (Pat.IdentPat { name := none }) ∧
    ActiveParameter.ident c8Param = none :=
  ⟨rfl, rfl⟩

/-- C8 amended: `ident` yields a name exactly when the binding is an
ordinary identifier pattern that carries that name; receiver markers and
all other patterns (and nameless identifier patterns) yield nothing. -/
theorem c8_ident_amended (ap : ActiveParameter) (n : Name) :
    ActiveParameter.ident ap = some n ↔
      ∃ p : IdentPat, ap.pat = Either.Right (Pat.IdentPat p) ∧
        p.name = some n := by
  obtain ⟨ty, pat⟩ := ap
  cases pat with
  | Left sp => simp [ActiveParameter.ident, Either.rightValue]
  | Right p =>
    cases p with
    | IdentPat ip => simp [ActiveParameter.ident, Either.rightValue]
    | WildcardPat => simp [ActiveParameter.ident, Either.rightValue]
    | TuplePat => simp [ActiveParameter.ident, Either.rightValue]
    | OtherPat => simp [ActiveParameter.ident, Either.rightValue]

/-- C10: each query is a pure function of the token and of the semantic
snapshot's observable resolution behavior: two invocations against
extensionally equal snapshots return identical results, so a query is
idempotent and leaves no trace in the model. -/
theorem c10_queries_deterministic (s1 s2 : Semantics) (token : SyntaxToken)
    (h1 : ∀ e, s1.type_of_expr e = s2.type_of_expr e)
    (h2 : ∀ t, s1.as_callable t = s2.as_callable t)
    (h3 : ∀ m, s1.resolve_method_call_as_callable m =
      s2.resolve_method_call_as_callable m)
    (h4 : ∀ p, s1.resolve_path p = s2.resolve_path p)
    (h5 : ∀ m, s1.resolve_method_call m = s2.resolve_method_call m) :
    ActiveParameter.at_token s1 token = ActiveParameter.at_token s2 token ∧
    callable_for_token s1 token = callable_for_token s2 token ∧
    generics_for_token s1 token = generics_for_token s2 token := by
  have hs : s1 = s2 := by
    obtain ⟨f1, f2, f3, f4, f5⟩ := s1
    obtain ⟨g1, g2, g3, g4, g5⟩ := s2
    simp only [Semantics.mk.injEq]
    exact ⟨funext h1, funext h2, funext h3, funext h4, funext h5⟩
  rw [hs]
  exact ⟨rfl, rfl, rfl⟩

/-- Witness for C10 at a concrete input: the three queries agree with
themselves on a concrete snapshot and token. -/
theorem c10_queries_deterministic_witness :
    ActiveParameter.at_token c3Sema c3Token = ActiveParameter.at_token c3Sema c3Token ∧
    callable_for_token c3Sema c3Token = callable_for_token c3Sema c3Token ∧
    generics_for_token c3Sema c3Token = generics_for_token c3Sema c3Token :=
  c10_queries_deterministic c3Sema c3Sema c3Token
    (fun _ => rfl) (fun _ => rfl) (fun _ => rfl) (fun _ => rfl) (fun _ => rfl)

end RA
